import Mathlib

/-!
Verification of the Bikeshare-Demand-Forecasting acquisition pipeline.

Shallow embedding of the pure logic of `src/get_data.py` and
`src/process_csv_files.py`:

* rows (Python dicts of string column → string value) are association
  lists; `rowGet` is `dict.get` (first matching key);
* the station-feed deduplication / left-join merge of
  `download_station_data`;
* the resume / retry / size-verification logic of `_download_with_resume`
  (filesystem and HTTP effects are made explicit: the destination file is
  an optional byte list, each attempt's network outcome is an explicit
  `AttemptOutcome`);
* the date-parsing regexes, start-column inference and quarterly→monthly
  bucketing of `process_csv_files.py`.
-/

/-- A CSV/JSON row: ordered mapping column-name → raw string value
(Python `dict`, which preserves insertion order). -/
abbrev Row := List (String × String)

/-- `dict.get k` / `row[k]`: value at the first occurrence of key `k`. -/
def rowGet (r : Row) (k : String) : Option String :=
  (r.find? (fun p => p.1 == k)).map (fun p => p.2)

/-- `dict.get(k, d)`: lookup with default. -/
def rowGetD (r : Row) (k : String) (d : String) : String :=
  (rowGet r k).getD d

/-- `dict.values()` in insertion order. -/
def rowValues (r : Row) : List String := r.map (fun p => p.2)

/-- `dict.keys()` in insertion order. -/
def rowKeys (r : Row) : List String := r.map (fun p => p.1)

/-- Python truthiness of `row.get("station_id")`: present and non-empty. -/
def truthySid (r : Row) : Option String :=
  match rowGet r "station_id" with
  | some s => if s = "" then none else some s
  | none => none

/-- Loop body of `_dedupe_by_station_id` (src/get_data.py:53-63):
`seen` accumulates station ids of already-kept rows whose id was truthy. -/
def dedupeGo (seen : List String) : List Row → List Row
  | [] => []
  | row :: rest =>
    match truthySid row with
    | some s =>
      if s ∈ seen then dedupeGo seen rest
      else row :: dedupeGo (s :: seen) rest
    | none => row :: dedupeGo seen rest

/-- `_dedupe_by_station_id` (src/get_data.py:53-63). -/
def _dedupe_by_station_id (rows : List Row) : List Row := dedupeGo [] rows

/-- Did an earlier row (in `prev`) carry the same truthy station id? -/
def sidSeenIn (prev : List Row) (s : String) : Bool :=
  prev.any (fun p => rowGet p "station_id" == some s)

/-- Written from the claim's words: a row is removed exactly when its
station_id is present, non-empty, and already appeared in an earlier row;
all other rows are kept in input order. -/
def dedupeSpecGo (prev : List Row) : List Row → List Row
  | [] => []
  | row :: rest =>
    let dropped :=
      match rowGet row "station_id" with
      | some s => s ≠ "" && sidSeenIn prev s
      | none => false
    if dropped then dedupeSpecGo (prev ++ [row]) rest
    else row :: dedupeSpecGo (prev ++ [row]) rest

/-- The invariant linking the code's `seen` set to the processed prefix. -/
def seenMatches (seen : List String) (prev : List Row) : Prop :=
  ∀ s : String, s ∈ seen ↔ (s ≠ "" ∧ sidSeenIn prev s = true)

lemma sidSeenIn_append (prev : List Row) (row : Row) (s : String) :
    sidSeenIn (prev ++ [row]) s =
      (sidSeenIn prev s || (rowGet row "station_id" == some s)) := by
  simp [sidSeenIn, List.any_append]

lemma truthySid_eq_some {r : Row} {s : String} (h : truthySid r = some s) :
    rowGet r "station_id" = some s ∧ s ≠ "" := by
  unfold truthySid at h
  cases hg : rowGet r "station_id" with
  | none => simp [hg] at h
  | some t =>
    simp [hg] at h
    by_cases ht : t = "" <;> simp [ht] at h
    · exact ⟨by simp [hg, ← h], by simp [← h]; exact ht⟩

lemma truthySid_eq_none {r : Row} (h : truthySid r = none) :
    rowGet r "station_id" = none ∨ rowGet r "station_id" = some "" := by
  unfold truthySid at h
  cases hg : rowGet r "station_id" with
  | none => exact Or.inl rfl
  | some t =>
    simp [hg] at h
    by_cases ht : t = "" <;> simp [ht] at h
    · exact Or.inr (by simp [ht])

lemma dedupeGo_eq_spec (rest : List Row) :
    ∀ (seen : List String) (prev : List Row), seenMatches seen prev →
      dedupeGo seen rest = dedupeSpecGo prev rest := by
  induction rest with
  | nil => intro seen prev _; rfl
  | cons row rest ih =>
    intro seen prev hinv
    unfold dedupeGo dedupeSpecGo
    cases hts : truthySid row with
    | some s =>
      obtain ⟨hget, hne⟩ := truthySid_eq_some hts
      simp only [hget]
      by_cases hmem : s ∈ seen
      · have hseen : sidSeenIn prev s = true := ((hinv s).mp hmem).2
        rw [if_pos hmem, if_pos (by simp [hne, hseen])]
        apply ih seen (prev ++ [row])
        intro t
        rw [hinv t, sidSeenIn_append]
        constructor
        · rintro ⟨h1, h2⟩; exact ⟨h1, by simp [h2]⟩
        · rintro ⟨h1, h2⟩
          simp only [Bool.or_eq_true] at h2
          rcases h2 with h2 | h2
          · exact ⟨h1, h2⟩
          · refine ⟨h1, ?_⟩
            have : s = t := by
              have := eq_of_beq h2
              rw [hget] at this
              exact (Option.some.inj this)
            rw [← this]
            exact ((hinv s).mp hmem).2
      · have hseen : sidSeenIn prev s = false := by
          by_contra hc
          have : sidSeenIn prev s = true := by
            cases h : sidSeenIn prev s
            · exact absurd h hc
            · rfl
          exact hmem ((hinv s).mpr ⟨hne, this⟩)
        rw [if_neg hmem, if_neg (by simp [hseen])]
        congr 1
        apply ih (s :: seen) (prev ++ [row])
        intro t
        simp only [List.mem_cons, hinv t, sidSeenIn_append]
        constructor
        · rintro (rfl | ⟨h1, h2⟩)
          · exact ⟨hne, by simp [hget]⟩
          · exact ⟨h1, by simp [h2]⟩
        · rintro ⟨h1, h2⟩
          simp only [Bool.or_eq_true] at h2
          rcases h2 with h2 | h2
          · exact Or.inr ⟨h1, h2⟩
          · left
            have := eq_of_beq h2
            rw [hget] at this
            exact (Option.some.inj this).symm
    | none =>
      rcases truthySid_eq_none hts with hget | hget
      all_goals {
        simp only [hget]
        first
        | (rw [if_neg (by simp)]
           congr 1
           apply ih seen (prev ++ [row])
           intro t
           rw [hinv t, sidSeenIn_append]
           constructor
           · rintro ⟨h1, h2⟩; exact ⟨h1, by simp [h2]⟩
           · rintro ⟨h1, h2⟩
             simp only [Bool.or_eq_true] at h2
             rcases h2 with h2 | h2
             · exact ⟨h1, h2⟩
             · exfalso
               have := eq_of_beq h2
               rw [hget] at this
               first
               | exact (Option.noConfusion this)
               | exact h1 (Option.some.inj this).symm)
      }

lemma dedupeGo_sublist (rest : List Row) :
    ∀ seen : List String, (dedupeGo seen rest).Sublist rest := by
  induction rest with
  | nil => intro seen; simp [dedupeGo]
  | cons row rest ih =>
    intro seen
    unfold dedupeGo
    cases truthySid row with
    | some s =>
      by_cases hmem : s ∈ seen
      · simp only [hmem, if_true]
        exact (ih seen).trans (List.sublist_cons_self row rest)
      · simp only [hmem, if_false]
        exact List.Sublist.cons₂ row (ih (s :: seen))
    | none => exact List.Sublist.cons₂ row (ih seen)

/-- C10: `_dedupe_by_station_id` removes a row exactly when its
`station_id` is present, non-empty and already seen in an earlier row;
rows with a missing or empty `station_id` are always kept; the kept rows
appear in their input order (the output is a sublist of the input). -/
theorem dedupe_first_occurrence_wins (rows : List Row) :
    _dedupe_by_station_id rows = dedupeSpecGo [] rows ∧
    (_dedupe_by_station_id rows).Sublist rows := by
  constructor
  · exact dedupeGo_eq_spec rows [] []
      (by intro s; simp [sidSeenIn])
  · exact dedupeGo_sublist rows []

/-! ## Record Normalizer: station feed merge (src/get_data.py:251-257) -/

/-- `_collect_fieldnames` (src/get_data.py:39-45): union of row keys in
first-appearance order. -/
def _collect_fieldnames (rows : List Row) : List String :=
  rows.foldl
    (fun acc r =>
      r.foldl (fun acc2 p => if p.1 ∈ acc2 then acc2 else acc2 ++ [p.1]) acc)
    []

/-- The dict comprehension
`{row["station_id"]: row for row in info_stations if "station_id" in row}`
(src/get_data.py:251): each present station_id maps to the LAST row
carrying it (later assignments overwrite earlier ones). -/
def infoLookup (info : List Row) (sid : String) : Option Row :=
  (info.filter (fun r => rowGet r "station_id" == some sid)).getLast?

/-- Python's `{**a, **b}`: keys of `a` in order (values overridden by `b`
where `b` defines the same key), then keys of `b` not present in `a`. -/
def dictMerge (a b : Row) : Row :=
  a.map (fun p => (p.1, (rowGet b p.1).getD p.2)) ++
    b.filter (fun p => (rowGet a p.1).isNone)

/-- One output row of the merge loop (src/get_data.py:254-257):
`combined_row = {**info_lookup.get(station_id, {}), **status_row}`. -/
def combinedRow (info : List Row) (s : Row) : Row :=
  let base :=
    match rowGet s "station_id" with
    | some sid => (infoLookup info sid).getD []
    | none => []
  dictMerge base s

/-- The full `combined_rows` list (src/get_data.py:253-257): one output
row per (deduplicated) status row. -/
def combinedRows (info status : List Row) : List Row :=
  status.map (combinedRow info)

/-- `combined_fieldnames` (src/get_data.py:252). -/
def combinedFieldnames (info status : List Row) : List String :=
  _collect_fieldnames info ++
    (_collect_fieldnames status).filter
      (fun f => f ∉ _collect_fieldnames info)

lemma rowGet_nil (k : String) : rowGet [] k = none := rfl

lemma rowGet_cons (k₀ v₀ : String) (t : Row) (k : String) :
    rowGet ((k₀, v₀) :: t) k = if k₀ == k then some v₀ else rowGet t k := by
  unfold rowGet
  cases h : (k₀ == k) <;> simp [List.find?, h]

lemma rowGet_append (l1 l2 : Row) (k : String) :
    rowGet (l1 ++ l2) k =
      match rowGet l1 k with
      | some v => some v
      | none => rowGet l2 k := by
  induction l1 with
  | nil => simp [rowGet_nil]
  | cons p t ih =>
    obtain ⟨k₀, v₀⟩ := p
    rw [List.cons_append, rowGet_cons, rowGet_cons]
    cases h : (k₀ == k) <;> simp [h, ih]

lemma rowGet_mapOverride (a b : Row) (k : String) :
    rowGet (a.map (fun p => (p.1, (rowGet b p.1).getD p.2))) k
      = (rowGet a k).map (fun v => (rowGet b k).getD v) := by
  induction a with
  | nil => rfl
  | cons p t ih =>
    obtain ⟨k₀, v₀⟩ := p
    simp only [List.map_cons]
    rw [rowGet_cons, rowGet_cons]
    cases h : (k₀ == k)
    · simp [h, ih]
    · have hk : k₀ = k := eq_of_beq h
      subst hk
      simp [h]

lemma rowGet_filter_keep (a b : Row) (k : String) (ha : rowGet a k = none) :
    rowGet (b.filter (fun p => (rowGet a p.1).isNone)) k = rowGet b k := by
  induction b with
  | nil => rfl
  | cons p t ih =>
    obtain ⟨k₁, v₁⟩ := p
    rw [rowGet_cons]
    cases h : (k₁ == k)
    · by_cases hg : ((rowGet a k₁).isNone : Bool) = true
      · rw [List.filter_cons_of_pos (by simpa using hg), rowGet_cons]
        simp [h, ih]
      · rw [List.filter_cons_of_neg (by simpa using hg)]
        simp [h, ih]
    · have hk : k₁ = k := eq_of_beq h
      subst hk
      rw [List.filter_cons_of_pos (by simp [ha]), rowGet_cons]
      simp [h]

lemma rowGet_dictMerge (a b : Row) (k : String) :
    rowGet (dictMerge a b) k =
      match rowGet a k with
      | some v => some ((rowGet b k).getD v)
      | none => rowGet b k := by
  unfold dictMerge
  rw [rowGet_append, rowGet_mapOverride]
  cases h : rowGet a k
  · simp [rowGet_filter_keep a b k h]
  · simp

lemma dictMerge_nil_left (b : Row) : dictMerge [] b = b := by
  unfold dictMerge
  simp only [List.map_nil, List.nil_append]
  exact List.filter_eq_self.mpr (fun p _ => rfl)

lemma rowKeys_dictMerge (a b : Row) :
    rowKeys (dictMerge a b) =
      rowKeys a ++ rowKeys (b.filter (fun p => (rowGet a p.1).isNone)) := by
  unfold dictMerge rowKeys
  rw [List.map_append, List.map_map]
  rfl

lemma rowGet_eq_none_iff (r : Row) (k : String) :
    rowGet r k = none ↔ k ∉ rowKeys r := by
  unfold rowGet rowKeys
  rw [Option.map_eq_none', List.find?_eq_none]
  constructor
  · intro h hk
    obtain ⟨p, hp, hpk⟩ := List.mem_map.mp hk
    exact h p hp (by simp [hpk])
  · intro h p hp hpk
    apply h
    have hpe : p.1 = k := eq_of_beq hpk
    rw [← hpe]
    exact List.mem_map_of_mem (fun q => q.1) hp

lemma combinedRow_no_base {info : List Row} {s : Row}
    (h : (match rowGet s "station_id" with
          | some sid => (infoLookup info sid).getD []
          | none => ([] : Row)) = []) :
    combinedRow info s = s := by
  unfold combinedRow
  rw [h]
  exact dictMerge_nil_left s

lemma combinedRow_sid (info : List Row) (s : Row) :
    rowGet (combinedRow info s) "station_id" = rowGet s "station_id" := by
  unfold combinedRow
  cases hs : rowGet s "station_id" with
  | none => rw [dictMerge_nil_left, hs]
  | some sid =>
    show rowGet (dictMerge ((infoLookup info sid).getD []) s) "station_id"
          = some sid
    cases hl : infoLookup info sid with
    | none =>
      rw [Option.getD_none, dictMerge_nil_left, hs]
    | some p =>
      rw [Option.getD_some, rowGet_dictMerge]
      cases hp : rowGet p "station_id" <;> simp [hs, hp]

lemma combinedRow_match {info : List Row} {s : Row} {sid : String} {p : Row}
    (hs : rowGet s "station_id" = some sid)
    (hl : infoLookup info sid = some p) :
    combinedRow info s = dictMerge p s := by
  unfold combinedRow
  rw [hs]
  show dictMerge ((infoLookup info sid).getD []) s = dictMerge p s
  rw [hl, Option.getD_some]

lemma combinedRow_nomatch {info : List Row} {s : Row} {sid : String}
    (hs : rowGet s "station_id" = some sid)
    (hl : infoLookup info sid = none) :
    combinedRow info s = s := by
  unfold combinedRow
  rw [hs]
  show dictMerge ((infoLookup info sid).getD []) s = s
  rw [hl, Option.getD_none]
  exact dictMerge_nil_left s

lemma combinedRow_nosid {info : List Row} {s : Row}
    (hs : rowGet s "station_id" = none) :
    combinedRow info s = s := by
  unfold combinedRow
  rw [hs]
  exact dictMerge_nil_left s

/-- C1: the station merge (src/get_data.py:251-257) is a left outer join
keyed on station_id over the deduplicated feeds: (1) one output row per
secondary (status) row; (2) when a primary (info) row with the same key
exists, the output row carries every primary column, and keeps the
primary value on every column the status row does not define; (3) when no
primary row matches (or the status row has no key), the output row is
exactly the secondary row; (4) every output row's key is the key of a
secondary row, so primary rows whose key appears in no secondary row
produce no output row. -/
theorem merge_left_outer_join (infoRaw statusRaw : List Row) :
    ((combinedRows (_dedupe_by_station_id infoRaw)
          (_dedupe_by_station_id statusRaw)).length
        = (_dedupe_by_station_id statusRaw).length)
    ∧ (∀ s ∈ _dedupe_by_station_id statusRaw, ∀ sid p,
        rowGet s "station_id" = some sid →
        infoLookup (_dedupe_by_station_id infoRaw) sid = some p →
        (∀ k ∈ rowKeys p,
            k ∈ rowKeys (combinedRow (_dedupe_by_station_id infoRaw) s)) ∧
        (∀ k, rowGet s k = none →
            rowGet (combinedRow (_dedupe_by_station_id infoRaw) s) k
              = rowGet p k))
    ∧ (∀ s ∈ _dedupe_by_station_id statusRaw,
        (∀ sid, rowGet s "station_id" = some sid →
            infoLookup (_dedupe_by_station_id infoRaw) sid = none →
            combinedRow (_dedupe_by_station_id infoRaw) s = s) ∧
        (rowGet s "station_id" = none →
            combinedRow (_dedupe_by_station_id infoRaw) s = s))
    ∧ (∀ c ∈ combinedRows (_dedupe_by_station_id infoRaw)
          (_dedupe_by_station_id statusRaw),
        ∃ s ∈ _dedupe_by_station_id statusRaw,
          rowGet c "station_id" = rowGet s "station_id") := by
  refine ⟨List.length_map _ _, ?_, ?_, ?_⟩
  · intro s _ sid p hs hl
    rw [combinedRow_match hs hl]
    constructor
    · intro k hk
      rw [rowKeys_dictMerge]
      exact List.mem_append_left _ hk
    · intro k hsk
      rw [rowGet_dictMerge]
      cases hp : rowGet p k
      · exact hsk
      · rw [hsk]; rfl
  · intro s _
    exact ⟨fun sid hs hl => combinedRow_nomatch hs hl,
           fun hs => combinedRow_nosid hs⟩
  · intro c hc
    obtain ⟨s, hs, rfl⟩ := List.mem_map.mp hc
    exact ⟨s, hs, combinedRow_sid _ s⟩

def wInfoRows : List Row :=
  [[("station_id", "1"), ("name", "A")], [("station_id", "3"), ("name", "C")]]

def wStatusRows : List Row :=
  [[("station_id", "1"), ("bikes", "5")], [("station_id", "4"), ("bikes", "2")]]

/-- Witness for C1 at concrete feeds: keys {1,3} on the info side, keys
{1,4} on the status side give exactly two output rows, and the key-4 row
(no info match) is passed through untouched. -/
theorem merge_left_outer_join_witness :
    (combinedRows (_dedupe_by_station_id wInfoRows)
        (_dedupe_by_station_id wStatusRows)).length = 2
    ∧ combinedRow (_dedupe_by_station_id wInfoRows)
        [("station_id", "4"), ("bikes", "2")]
      = [("station_id", "4"), ("bikes", "2")] := by
  have h := merge_left_outer_join wInfoRows wStatusRows
  constructor
  · rw [h.1]; decide
  · exact (h.2.2.1 [("station_id", "4"), ("bikes", "2")] (by decide)).1 "4"
      (by decide) (by decide)

def cexInfoRows : List Row := [[("station_id", "1"), ("name", "A")]]

def cexStatusRows : List Row := [[("station_id", "1"), ("name", "B")]]

/-- C9 counterexample: primary and secondary rows share key "1" and both
define column "name" (info value "A", status value "B").  The merged row
holds the STATUS value "B": in `{**info_row, **status_row}` the status
side overwrites the info side on shared columns, refuting "the merge
preserves the primary (info) field's value". -/
theorem merge_info_preserved_cex :
    rowGet ((combinedRows (_dedupe_by_station_id cexInfoRows)
        (_dedupe_by_station_id cexStatusRows)).headD []) "name" = some "B"
    ∧ rowGet ((_dedupe_by_station_id cexInfoRows).headD []) "name" = some "A"
    ∧ ("B" : String) ≠ "A" := by
  refine ⟨?_, ?_, ?_⟩ <;> decide

/-- C9 amended: in the merged row `{**info_row, **status_row}`, a column
defined by both sources takes the SECONDARY (status) value; a column only
the info row defines keeps the info value; a column only the status row
defines is added; and when each input row has duplicate-free keys the
merged row has duplicate-free keys. -/
theorem merge_status_overwrites_shared (a b : Row) (k : String) :
    (∀ v w, rowGet a k = some v → rowGet b k = some w →
        rowGet (dictMerge a b) k = some w)
    ∧ (rowGet b k = none → rowGet (dictMerge a b) k = rowGet a k)
    ∧ (rowGet a k = none → rowGet (dictMerge a b) k = rowGet b k)
    ∧ ((rowKeys a).Nodup → (rowKeys b).Nodup →
        (rowKeys (dictMerge a b)).Nodup) := by
  refine ⟨?_, ?_, ?_, ?_⟩
  · intro v w ha hb
    rw [rowGet_dictMerge, ha, hb]
    rfl
  · intro hb
    rw [rowGet_dictMerge]
    cases ha : rowGet a k
    · rw [hb]
    · rw [hb]; rfl
  · intro ha
    rw [rowGet_dictMerge, ha]
  · intro ha hb
    rw [rowKeys_dictMerge]
    refine List.Nodup.append ha ?_ ?_
    · exact hb.sublist (List.Sublist.map _ (List.filter_sublist _))
    · intro k' hk1 hk2
      obtain ⟨p, hpF, hpk⟩ := List.mem_map.mp hk2
      have hp := List.mem_filter.mp hpF
      have hnone : rowGet a p.1 = none := by
        have := hp.2
        simpa [Option.isNone_iff_eq_none] using this
      rw [hpk] at hnone
      exact (rowGet_eq_none_iff a k').mp hnone hk1

/-- Witness for the amended C9 at concrete rows sharing column "name". -/
theorem merge_status_overwrites_shared_witness :
    rowGet (dictMerge [("station_id", "1"), ("name", "A")]
        [("station_id", "1"), ("name", "B")]) "name" = some "B"
    ∧ (rowKeys (dictMerge [("station_id", "1"), ("name", "A")]
        [("station_id", "1"), ("name", "B")])).Nodup := by
  have h := merge_status_overwrites_shared
      [("station_id", "1"), ("name", "A")]
      [("station_id", "1"), ("name", "B")] "name"
  exact ⟨h.1 "A" "B" (by decide) (by decide), h.2.2.2 (by decide) (by decide)⟩

/-! ## Resumable Downloader (`_download_with_resume`,
src/get_data.py:87-125 and src/process_csv_files.py:42-67; both copies
share the logic modelled here).

The destination file is `Option (List Nat)` (`none` = file absent,
`some bytes` = its contents).  One retry loop iteration's network result
is an `AttemptOutcome`: `ok body` — the GET succeeded and streamed `body`
to the open file handle; `err f` — some exception was raised (connection
error, non-2xx status, mid-stream failure), leaving the destination in
state `f`. -/

/-- The resume condition of lines 100-103:
`if existing and (expected_size is None or existing < expected_size)`. -/
def resumeCond (existing : Nat) (expected : Option Nat) : Bool :=
  existing != 0 &&
    (match expected with
     | none => true
     | some e => existing < e)

/-- The attempt's plan: the `Range` request start offset (`none` when no
`Range` header is sent) and the open mode (`append = true` for `"ab"`,
`false` for `"wb"`). -/
structure AttemptPlan where
  rangeStart : Option Nat
  append : Bool
  deriving DecidableEq, Repr

/-- Lines 98-103: choose headers and mode from the current file state. -/
def planAttempt (file : Option (List Nat)) (expected : Option Nat) :
    AttemptPlan :=
  let existing := (file.map List.length).getD 0
  if resumeCond existing expected then ⟨some existing, true⟩
  else ⟨none, false⟩

/-- Effect of streaming `body` into the file opened with the given mode:
`"ab"` appends, `"wb"` truncates and rewrites. -/
def applyWrite (file : Option (List Nat)) (append : Bool)
    (body : List Nat) : List Nat :=
  if append then file.getD [] ++ body else body

/-- Network outcome of one loop attempt. -/
inductive AttemptOutcome
  | err (fileAfter : Option (List Nat))
  | ok (body : List Nat)

/-- Line 113: `expected_size is not None and size != expected_size`
negated — the size check an attempt must pass to `return True`. -/
def sizeOk (expected : Option Nat) (len : Nat) : Bool :=
  match expected with
  | none => true
  | some e => len == e

/-- The retry loop (lines 95-124) run over a fixed list of attempt
outcomes (one entry per `range(1, max_retries + 1)` iteration).  Returns
the final file state and whether the loop hit `return True`.  On an
exception at the last attempt the loop `break`s; on a size mismatch at
the last attempt the `continue` exhausts the loop. -/
def runAttempts (expected : Option Nat) :
    Option (List Nat) → List AttemptOutcome → Option (List Nat) × Bool
  | file, [] => (file, false)
  | _file, .err f :: rest =>
    match rest with
    | [] => (f, false)
    | _ :: _ => runAttempts expected f rest
  | file, .ok body :: rest =>
    let plan := planAttempt file expected
    let f := applyWrite file plan.append body
    if sizeOk expected f.length then (some f, true)
    else
      match rest with
      | [] => (some f, false)
      | _ :: _ => runAttempts expected (some f) rest

/-- Line 125: `dest.exists() and (expected_size is None or
dest.stat().st_size >= (expected_size * 0.95))`.  The float threshold
`expected_size * 0.95` is modelled exactly as the rational inequality
`20 * size ≥ 19 * expected`. -/
def atLeast95 (expected : Option Nat) (file : Option (List Nat)) : Bool :=
  match file with
  | none => false
  | some c =>
    match expected with
    | none => true
    | some e => 19 * e ≤ 20 * c.length

/-- `_download_with_resume`'s returned boolean: `True` from inside the
loop, or the final fallback check of line 125. -/
def downloadResult (expected : Option Nat) (file0 : Option (List Nat))
    (ocs : List AttemptOutcome) : Bool :=
  let r := runAttempts expected file0 ocs
  r.2 || atLeast95 expected r.1

/-- Unfolding of `planAttempt` on an existing file. -/
lemma planAttempt_some (old : List Nat) (expected : Option Nat) :
    planAttempt (some old) expected =
      if resumeCond old.length expected then ⟨some old.length, true⟩
      else ⟨none, false⟩ := rfl

lemma resumeCond_iff (old : List Nat) (expected : Option Nat) :
    resumeCond old.length expected = true ↔
      (0 < old.length ∧
        (expected = none ∨ ∃ e, expected = some e ∧ old.length < e)) := by
  unfold resumeCond
  cases expected with
  | none =>
    simp only [Bool.and_true]
    rw [bne_iff_ne]
    constructor
    · intro h; exact ⟨Nat.pos_of_ne_zero h, by simp⟩
    · rintro ⟨h, -⟩; exact Nat.pos_iff_ne_zero.mp h
  | some e =>
    rw [Bool.and_eq_true, bne_iff_ne, decide_eq_true_eq]
    constructor
    · rintro ⟨h1, h2⟩
      exact ⟨Nat.pos_of_ne_zero h1, Or.inr ⟨e, rfl, h2⟩⟩
    · rintro ⟨h1, h | ⟨e', he', hlt⟩⟩
      · exact Option.noConfusion h
      · cases he'
        exact ⟨Nat.pos_iff_ne_zero.mp h1, hlt⟩

/-- C2: when the destination holds `k` bytes with `0 < k` and the
expected size is unknown or `k` below it, the attempt sends
`Range: bytes=k-` and opens in append mode, so after streaming any body
the first `k` bytes are unchanged; in every other case (no file, empty
file, or `k` at least the expected size) no Range header is sent and the
file is truncated and rewritten to exactly the streamed body. -/
theorem resume_uses_range_and_keeps_first_bytes
    (old : List Nat) (expected : Option Nat) (body : List Nat) :
    ((0 < old.length ∧
        (expected = none ∨ ∃ e, expected = some e ∧ old.length < e)) →
      planAttempt (some old) expected = ⟨some old.length, true⟩ ∧
      (applyWrite (some old) true body).take old.length = old)
    ∧ (¬ (0 < old.length ∧
          (expected = none ∨ ∃ e, expected = some e ∧ old.length < e)) →
      planAttempt (some old) expected = ⟨none, false⟩ ∧
      applyWrite (some old) false body = body)
    ∧ (planAttempt none expected = ⟨none, false⟩ ∧
       applyWrite none false body = body) := by
  refine ⟨?_, ?_, rfl, rfl⟩
  · intro h
    constructor
    · rw [planAttempt_some, if_pos ((resumeCond_iff old expected).mpr h)]
    · show (old ++ body).take old.length = old
      simp
  · intro h
    refine ⟨?_, rfl⟩
    rw [planAttempt_some,
        if_neg (fun hc => h ((resumeCond_iff old expected).mp hc))]

/-- Witness for C2: a 1-byte partial file, expected size 3 — the plan is
`Range: bytes=1-` with append, and byte 0 survives; for a file already at
the expected size the plan is a fresh truncate-and-write. -/
theorem resume_uses_range_and_keeps_first_bytes_witness :
    (planAttempt (some [7]) (some 3) = ⟨some 1, true⟩ ∧
      (applyWrite (some [7]) true [8, 9]).take 1 = [7])
    ∧ (planAttempt (some [7, 8, 9]) (some 3) = ⟨none, false⟩ ∧
      applyWrite (some [7, 8, 9]) false [0] = [0]) := by
  constructor
  · exact (resume_uses_range_and_keeps_first_bytes [7] (some 3) [8, 9]).1
      ⟨by decide, Or.inr ⟨3, rfl, by decide⟩⟩
  · exact (resume_uses_range_and_keeps_first_bytes [7, 8, 9] (some 3) [0]).2.1
      (by
        rintro ⟨-, h | ⟨e, he, hlt⟩⟩
        · exact Option.noConfusion h
        · cases he; exact absurd hlt (by decide))

lemma runAttempts_err_last (e : Option Nat) (file f : Option (List Nat)) :
    runAttempts e file [.err f] = (f, false) := rfl

lemma runAttempts_err_cons (e : Option Nat) (file f : Option (List Nat))
    (o : AttemptOutcome) (rs : List AttemptOutcome) :
    runAttempts e file (.err f :: o :: rs) = runAttempts e f (o :: rs) := rfl

lemma runAttempts_ok_cons (e : Option Nat) (file : Option (List Nat))
    (body : List Nat) (rest : List AttemptOutcome) :
    runAttempts e file (.ok body :: rest) =
      (let f := applyWrite file (planAttempt file e).append body
       if sizeOk e f.length then (some f, true)
       else
         match rest with
         | [] => (some f, false)
         | _ :: _ => runAttempts e (some f) rest) := rfl

lemma atLeast95_of_sizeOk (e : Option Nat) (c : List Nat)
    (h : sizeOk e c.length = true) : atLeast95 e (some c) = true := by
  cases e with
  | none => rfl
  | some sz =>
    simp only [sizeOk, beq_iff_eq] at h
    simp only [atLeast95, decide_eq_true_eq]
    omega

lemma runAttempts_true_implies (e : Option Nat) (ocs : List AttemptOutcome) :
    ∀ file : Option (List Nat), (runAttempts e file ocs).2 = true →
      atLeast95 e (runAttempts e file ocs).1 = true := by
  induction ocs with
  | nil => intro file h; simp [runAttempts] at h
  | cons oc rest ih =>
    intro file h
    cases oc with
    | err f =>
      cases rest with
      | nil => rw [runAttempts_err_last] at h; simp at h
      | cons o rs =>
        rw [runAttempts_err_cons] at h ⊢
        exact ih f h
    | ok body =>
      rw [runAttempts_ok_cons] at h ⊢
      by_cases hs :
          sizeOk e (applyWrite file (planAttempt file e).append body).length
            = true
      · rw [if_pos hs] at h ⊢
        exact atLeast95_of_sizeOk e _ hs
      · rw [if_neg hs] at h ⊢
        cases rest with
        | nil => simp at h
        | cons o rs => exact ih _ h

/-- C3 amended: `_download_with_resume` returns `True` exactly when,
after the retry loop, the destination file exists and either the expected
size is unknown or the final size is at least 95% of it (an exact size
match inside the loop is the special case that returns immediately and
satisfies this).  The function returns only this boolean — the achieved
size ratio is not part of the result. -/
theorem download_success_iff_final_check (expected : Option Nat)
    (file0 : Option (List Nat)) (ocs : List AttemptOutcome) :
    downloadResult expected file0 ocs
      = atLeast95 expected (runAttempts expected file0 ocs).1 := by
  unfold downloadResult
  cases h : (runAttempts expected file0 ocs).2 with
  | false => simp [h]
  | true => simp [h, runAttempts_true_implies expected ocs file0 h]

/-- C3 counterexample: two downloads ending in the 95%-fallback zone with
different achieved sizes (95 and 99 bytes of an expected 100) both return
the identical bare `true : Bool`; the result carries no ratio, so the
caller cannot recover the achieved ratio from what the engine reports,
refuting "the engine surfaces the actual achieved size ratio to the
caller". -/
theorem download_ratio_not_surfaced_cex :
    downloadResult (some 100) none [.ok (List.replicate 95 0)] = true
    ∧ downloadResult (some 100) none [.ok (List.replicate 99 0)] = true
    ∧ (List.replicate 95 (0 : Nat)).length ≠ (List.replicate 99 (0 : Nat)).length := by
  refine ⟨?_, ?_, ?_⟩ <;> decide

/-! ## Temporal Splitter: date parsing
(`_parse_year_month_any` / `_extract_year_month`,
src/process_csv_files.py:88-136).  The three regexes are modelled at
character level with the engine's leftmost-match, greedy-with-backtracking
semantics (ASCII digits, which is what the data contains). -/

def isSepChar (c : Char) : Bool := c == '-' || c == '/'

def digitVal (c : Char) : Nat := c.toNat - '0'.toNat

/-- Python `str.strip()`: drop leading and trailing whitespace. -/
def isSpaceChar (c : Char) : Bool :=
  c == ' ' || c == '\t' || c == '\n' || c == '\r' || c == '\x0b' || c == '\x0c'

def trimChars (cs : List Char) : List Char :=
  ((cs.dropWhile isSpaceChar).reverse.dropWhile isSpaceChar).reverse

/-- Match of `_y_m_d` — four-digit year, a separator '-' or '/', then a
greedy one-or-two-digit month, then an optional separator-plus-day group —
anchored at the head.  The trailing optional day group can always match
empty, so it never constrains the captures. -/
def matchYMDAt : List Char → Option (Nat × Nat)
  | c1 :: c2 :: c3 :: c4 :: s :: d1 :: rest =>
    if c1.isDigit && c2.isDigit && c3.isDigit && c4.isDigit && isSepChar s
        && d1.isDigit then
      let y := ((digitVal c1 * 10 + digitVal c2) * 10 + digitVal c3) * 10
        + digitVal c4
      match rest with
      | d2 :: _ =>
        if d2.isDigit then some (y, digitVal d1 * 10 + digitVal d2)
        else some (y, digitVal d1)
      | [] => some (y, digitVal d1)
    else none
  | _ => none

/-- `re.search` for `_y_m_d`: leftmost matching start position. -/
def searchYMD : List Char → Option (Nat × Nat)
  | [] => none
  | c :: rest =>
    match matchYMDAt (c :: rest) with
    | some r => some r
    | none => searchYMD rest

/-- The greedy-first alternatives of `\d{1,2}`: two digits if available,
then one digit. -/
def num2or1 : List Char → List (Nat × List Char)
  | d1 :: d2 :: rest =>
    if d1.isDigit then
      if d2.isDigit then
        [(digitVal d1 * 10 + digitVal d2, rest), (digitVal d1, d2 :: rest)]
      else [(digitVal d1, d2 :: rest)]
    else []
  | [d1] => if d1.isDigit then [(digitVal d1, [])] else []
  | [] => []

def firstSome {α β : Type} (f : α → Option β) : List α → Option β
  | [] => none
  | a :: rest =>
    match f a with
    | some b => some b
    | none => firstSome f rest

def takeSep : List Char → Option (List Char)
  | s :: rest => if isSepChar s then some rest else none
  | [] => none

def take4Digits : List Char → Option Nat
  | a :: b :: c :: d :: _ =>
    if a.isDigit && b.isDigit && c.isDigit && d.isDigit then
      some (((digitVal a * 10 + digitVal b) * 10 + digitVal c) * 10
        + digitVal d)
    else none
  | _ => none

/-- Backtracking match of the two-numbers-then-four-digit-year pattern
(one-or-two digits, separator, one-or-two digits, separator, four digits)
anchored at the head, trying the greedy-first alternatives of each
one-or-two-digit group.
`_m_d_y` and `_d_m_y` (src/process_csv_files.py:89-90) are this same
pattern with the group names swapped, so a single matcher serves both:
`_m_d_y` reads the month from the first captured number, `_d_m_y` from
the second. -/
def matchTwoNumsYearAt (cs : List Char) : Option (Nat × Nat × Nat) :=
  firstSome (fun av =>
    match takeSep av.2 with
    | none => none
    | some r2 =>
      firstSome (fun bv =>
        match takeSep bv.2 with
        | none => none
        | some r4 =>
          match take4Digits r4 with
          | some y => some (av.1, bv.1, y)
          | none => none) (num2or1 r2)) (num2or1 cs)

/-- `re.search` for `_m_d_y`/`_d_m_y`: leftmost matching start position. -/
def searchTwoNumsYear : List Char → Option (Nat × Nat × Nat)
  | [] => none
  | c :: rest =>
    match matchTwoNumsYearAt (c :: rest) with
    | some r => some r
    | none => searchTwoNumsYear rest

/-- The `_d_m_y` attempt (lines 117-123): month is the second number. -/
def parseDMY (v : List Char) : Option (Nat × Nat) :=
  match searchTwoNumsYear v with
  | some (_, b, y) => if 1 ≤ b ∧ b ≤ 12 then some (y, b) else none
  | none => none

/-- The `_m_d_y` attempt (lines 110-116), falling through to `_d_m_y`:
month is the first number. -/
def parseMDY (v : List Char) : Option (Nat × Nat) :=
  match searchTwoNumsYear v with
  | some (a, _, y) => if 1 ≤ a ∧ a ≤ 12 then some (y, a) else parseDMY v
  | none => parseDMY v

/-- `_parse_year_month_any` (src/process_csv_files.py:92-124). -/
def _parse_year_month_any (value : String) : Option (Nat × Nat) :=
  if value = "" then none
  else
    match searchYMD (trimChars value.toList) with
    | some (y, mm) =>
      if 1 ≤ mm ∧ mm ≤ 12 then some (y, mm)
      else parseMDY (trimChars value.toList)
    | none => parseMDY (trimChars value.toList)

/-- Python `f"{y}-{m:02d}"`. -/
def fmtYM (y m : Nat) : String :=
  toString y ++ "-" ++ (if m < 10 then "0" ++ toString m else toString m)

/-- `_extract_year_month` (src/process_csv_files.py:126-136). -/
def _extract_year_month (value : String) (expected_year : Nat) :
    Option String :=
  match _parse_year_month_any value with
  | none => none
  | some (y, m) => if y ≠ expected_year then none else some (fmtYM y m)

/-- Written from the claim's words: the fixed attempt order — the
`YYYY-MM[-DD]` search, then `MM/DD/YYYY` (month = first number), then
`DD/MM/YYYY` (month = second number). -/
def patternAttempts (w : List Char) : List (Option (Nat × Nat)) :=
  [searchYMD w,
   (searchTwoNumsYear w).bind (fun t => some (t.2.2, t.1)),
   (searchTwoNumsYear w).bind (fun t => some (t.2.2, t.2.1))]

/-- First attempt that matched with a month in [1,12]. -/
def firstInRange : List (Option (Nat × Nat)) → Option (Nat × Nat)
  | [] => none
  | none :: rest => firstInRange rest
  | some (y, m) :: rest =>
    if 1 ≤ m ∧ m ≤ 12 then some (y, m) else firstInRange rest

/-- Written from the claim's words: the whole parser as "first pattern,
in the fixed order, that matches and yields a month in [1,12]". -/
def parseSpecOrdered (value : String) : Option (Nat × Nat) :=
  if value = "" then none
  else firstInRange (patternAttempts (trimChars value.toList))

lemma firstInRange_cons_none (rest : List (Option (Nat × Nat))) :
    firstInRange (none :: rest) = firstInRange rest := rfl

lemma firstInRange_cons_some (y m : Nat) (rest : List (Option (Nat × Nat))) :
    firstInRange (some (y, m) :: rest) =
      if 1 ≤ m ∧ m ≤ 12 then some (y, m) else firstInRange rest := rfl

lemma parseMDY_eq_firstInRange (w : List Char) :
    parseMDY w = firstInRange
      [(searchTwoNumsYear w).bind (fun t => some (t.2.2, t.1)),
       (searchTwoNumsYear w).bind (fun t => some (t.2.2, t.2.1))] := by
  unfold parseMDY parseDMY
  cases h : searchTwoNumsYear w with
  | none => simp [firstInRange]
  | some t =>
    obtain ⟨a, b, y⟩ := t
    by_cases ha : 1 ≤ a ∧ a ≤ 12
    · simp [firstInRange, ha]
    · by_cases hb : 1 ≤ b ∧ b ≤ 12 <;>
        simp [firstInRange, ha, hb]

/-- C4: the parser tries the patterns in the fixed order — `YYYY-MM[-DD]`
with '-' or '/' separator, then `MM/DD/YYYY`, then `DD/MM/YYYY` — and the
first pattern matching with a month in [1,12] determines the result; and
the inputs "2023-07-15", "07/15/2023" and "15/07/2023" with expected year
2023 each resolve to month 7, bucket "2023-07". -/
theorem date_parse_order_and_coverage :
    (∀ v : String, _parse_year_month_any v = parseSpecOrdered v)
    ∧ _parse_year_month_any "2023-07-15" = some (2023, 7)
    ∧ _parse_year_month_any "07/15/2023" = some (2023, 7)
    ∧ _parse_year_month_any "15/07/2023" = some (2023, 7)
    ∧ _extract_year_month "2023-07-15" 2023 = some "2023-07"
    ∧ _extract_year_month "07/15/2023" 2023 = some "2023-07"
    ∧ _extract_year_month "15/07/2023" 2023 = some "2023-07" := by
  refine ⟨?_, by decide, by decide, by decide, by decide, by decide,
    by decide⟩
  intro v
  unfold _parse_year_month_any parseSpecOrdered patternAttempts
  by_cases hv : v = ""
  · rw [if_pos hv, if_pos hv]
  · rw [if_neg hv, if_neg hv]
    cases h1 : searchYMD (trimChars v.toList) with
    | none =>
      exact parseMDY_eq_firstInRange _
    | some p =>
      obtain ⟨y, mm⟩ := p
      show (if 1 ≤ mm ∧ mm ≤ 12 then some (y, mm)
            else parseMDY (trimChars v.toList)) = _
      rw [firstInRange_cons_some]
      by_cases hm : 1 ≤ mm ∧ mm ≤ 12
      · rw [if_pos hm, if_pos hm]
      · rw [if_neg hm, if_neg hm]
        exact parseMDY_eq_firstInRange _

/-! ## Temporal Splitter: start-column inference, row bucketing and the
quarterly→monthly split (`_infer_start_datetime_field`,
`_split_quarterly_to_monthly`, src/process_csv_files.py:69-85,138-208). -/

def hasPrefB : List Char → List Char → Bool
  | [], _ => true
  | _ :: _, [] => false
  | c :: cs, d :: ds => c == d && hasPrefB cs ds

/-- Python's `needle in hay` substring test. -/
def substrB (needle : List Char) : List Char → Bool
  | [] => needle.isEmpty
  | d :: ds => hasPrefB needle (d :: ds) || substrB needle ds

def strContains (s sub : String) : Bool := substrB sub.toList s.toList

/-- The fixed fallback list of lines 79-82, in source order. -/
def startNameCandidates : List String :=
  ["Start Time", "Trip Start Time", "Start time", "start_time", "starttime",
   "start", "Start Date", "StartDate", "Started At", "started_at",
   "Started at"]

/-- ASCII case of Python `h.lower()` (the header names are ASCII;
`String.toLower` itself is avoided because its byte-position recursion
does not reduce in the kernel). -/
def lowerChar (c : Char) : Char :=
  if 65 ≤ c.toNat ∧ c.toNat ≤ 90 then Char.ofNat (c.toNat + 32) else c

def strLower (s : String) : String := String.mk (s.toList.map lowerChar)

/-- `_infer_start_datetime_field` (src/process_csv_files.py:69-85). -/
def _infer_start_datetime_field (headers : List String) : Option String :=
  let candidates := headers.filter (fun h => h != "")
  match candidates.find? (fun h =>
      let l := strLower h
      strContains l "start" &&
        (strContains l "time" || strContains l "date" ||
          strContains l "datetime")) with
  | some h => some h
  | none => startNameCandidates.find? (fun n => candidates.contains n)

/-- Bucket choice for one row (lines 164-179): the inferred start column
first, else scan every value in order.  `_infer_start_datetime_field`
never returns an empty name, so `if start_col:` is the `some` case. -/
def rowBucket (startCol : Option String) (year : Nat) (row : Row) :
    Option String :=
  let ym :=
    match startCol with
    | some c => _extract_year_month (rowGetD row c "") year
    | none => none
  match ym with
  | some b => some b
  | none => firstSome (fun v => _extract_year_month v year) (rowValues row)

/-- `monthly_buckets[ym].append(row)` on an insertion-ordered dict of
lists (`defaultdict(list)`). -/
def bucketsAdd (bs : List (String × List Row)) (k : String) (r : Row) :
    List (String × List Row) :=
  match bs with
  | [] => [(k, [r])]
  | (k', rs) :: rest =>
    if k' = k then (k', rs ++ [r]) :: rest
    else (k', rs) :: bucketsAdd rest k r

/-- One row of the bucketing loop. -/
def bucketStep (sc : Option String) (year : Nat)
    (b : List (String × List Row)) (r : Row) : List (String × List Row) :=
  match rowBucket sc year r with
  | some k => bucketsAdd b k r
  | none => b

/-- Decoded content of one quarterly CSV.  `utf8Ok`: the bytes decode as
UTF-8 (with optional byte-order marker) into this header list and these
DictReader rows.  `utf8Bad`: the bytes are NOT valid UTF-8; Latin-1,
which decodes any byte sequence, would yield this header and these
rows. -/
inductive FileContent
  | utf8Ok (headers : List String) (rows : List Row)
  | utf8Bad (headers : List String) (rows : List Row)
  deriving DecidableEq

/-- What the code actually obtains from one quarterly file
(src/process_csv_files.py:146-181).  CPython text files decode lazily:
`UnicodeDecodeError` is raised when the stream is first READ — here at
`reader.fieldnames`, inside the `with f:` block — never at `open`, so the
`except UnicodeDecodeError` wrapped around `open` (line 152) cannot
fire.  The decode error is instead caught by the generic
`except Exception` (line 180), and the file contributes nothing. -/
def readQuarterlyCode : FileContent → Option (List String × List Row)
  | .utf8Ok h rs => some (h, rs)
  | .utf8Bad _ _ => none

/-- Modelled from the spec: the intended encoding fallback of §4.4 — try
UTF-8-with-marker, and when that decoding fails, read the file with
Latin-1 (which decodes any byte sequence), so no file is skipped for its
encoding. -/
def readQuarterlySpec : FileContent → Option (List String × List Row)
  | .utf8Ok h rs => some (h, rs)
  | .utf8Bad h rs => some (h, rs)

/-- Per-file step of `_split_quarterly_to_monthly`'s reading loop (lines
146-181): on a successful read, record the first non-empty header as the
output header order, infer the start column from this file's header, and
bucket each row; on a failed read, leave the accumulator unchanged. -/
def chooseHeader (ho : Option (List String)) (h : List String) :
    Option (List String) :=
  match ho with
  | some h0 => some h0
  | none =>
    match h with
    | [] => none
    | _ => some h

def processFile (year : Nat)
    (acc : List (String × List Row) × Option (List String))
    (fc : FileContent) :
    List (String × List Row) × Option (List String) :=
  match readQuarterlyCode fc with
  | none => acc
  | some (h, rows) =>
    (rows.foldl (bucketStep (_infer_start_datetime_field h) year) acc.1,
     chooseHeader acc.2 h)

/-- Result of the split: the in-memory buckets, the chosen header order,
the monthly files actually written (name and its data rows), the return
count, and whether the quarterly inputs were deleted. -/
structure SplitOutcome where
  buckets : List (String × List Row)
  headerOrder : Option (List String)
  monthlyFiles : List (String × List Row)
  written : Nat
  deleted : Bool

/-- Code-point lexicographic order, as Python compares strings
(`String.decidableLE` itself is avoided because its iterator-based
comparison does not reduce in the kernel). -/
def charListLe : List Char → List Char → Bool
  | [], _ => true
  | _ :: _, [] => false
  | c :: cs, d :: ds =>
    if c.toNat < d.toNat then true
    else if d.toNat < c.toNat then false
    else charListLe cs ds

def strLeB (a b : String) : Bool := charListLe a.toList b.toList

/-- Insertion sort by bucket name, modelling `sorted(monthly_buckets.items())`
(keys are distinct, so any comparison sort yields the same list). -/
def insertSorted (p : String × List Row) :
    List (String × List Row) → List (String × List Row)
  | [] => [p]
  | q :: rest =>
    if strLeB p.1 q.1 then p :: q :: rest else q :: insertSorted p rest

def sortBuckets : List (String × List Row) → List (String × List Row)
  | [] => []
  | p :: rest => insertSorted p (sortBuckets rest)

/-- Lines 183-208: `if not monthly_buckets or header_order is None:
return 0` (no writes, no deletion); otherwise write each bucket in sorted
order (a write may fail per-bucket, modelled by `writeFails`), count the
successes, and delete the quarterly inputs iff at least one monthly file
was written. -/
def splitFinish (bs : List (String × List Row)) (ho : Option (List String))
    (writeFails : String → Bool) : SplitOutcome :=
  match ho, bs with
  | some h, b :: bs' =>
    let ok := (sortBuckets (b :: bs')).filter (fun p => !(writeFails p.1))
    { buckets := b :: bs', headerOrder := some h, monthlyFiles := ok,
      written := ok.length, deleted := decide (0 < ok.length) }
  | ho', bs' =>
    { buckets := bs', headerOrder := ho', monthlyFiles := [], written := 0,
      deleted := false }

/-- `_split_quarterly_to_monthly` (src/process_csv_files.py:138-208). -/
def splitQuarterly (year : Nat) (files : List FileContent)
    (writeFails : String → Bool) : SplitOutcome :=
  let acc := files.foldl (processFile year) ([], none)
  splitFinish acc.1 acc.2 writeFails

/-- C7: the claimed Latin-1 fallback is unreachable.  A quarterly file
whose bytes are not valid UTF-8 contributes nothing under the code (the
lazy decode error is caught by the generic handler and the file is
skipped), while the intended fallback — documented by the code's own
comment "Try utf-8-sig first, then latin-1 if needed" — would read it;
with such a file as the only input, the split returns 0. -/
theorem latin1_fallback_dead_code :
    readQuarterlyCode
        (.utf8Bad ["Start Time"] [[("Start Time", "2023-07-15")]]) = none
    ∧ readQuarterlySpec
        (.utf8Bad ["Start Time"] [[("Start Time", "2023-07-15")]])
        = some (["Start Time"], [[("Start Time", "2023-07-15")]])
    ∧ (splitQuarterly 2023
        [.utf8Bad ["Start Time"] [[("Start Time", "2023-07-15")]]]
        (fun _ => false)).written = 0
    ∧ (splitQuarterly 2023
        [.utf8Ok ["Start Time"] [[("Start Time", "2023-07-15")]]]
        (fun _ => false)).written = 1 := by
  refine ⟨rfl, rfl, rfl, by decide⟩

lemma firstSome_mem {α β : Type} {f : α → Option β} {l : List α} {b : β}
    (h : firstSome f l = some b) : ∃ a ∈ l, f a = some b := by
  induction l with
  | nil => exact Option.noConfusion h
  | cons a rest ih =>
    unfold firstSome at h
    cases hf : f a with
    | some b' =>
      rw [hf] at h
      exact ⟨a, List.mem_cons_self a rest,
        hf.trans (show some b' = some b from h)⟩
    | none =>
      rw [hf] at h
      obtain ⟨a', ha', hfa'⟩ := ih (show firstSome f rest = some b from h)
      exact ⟨a', List.mem_cons_of_mem a ha', hfa'⟩

lemma parseDMY_month_range {w : List Char} {y m : Nat}
    (h : parseDMY w = some (y, m)) : 1 ≤ m ∧ m ≤ 12 := by
  unfold parseDMY at h
  cases hs : searchTwoNumsYear w with
  | none =>
    rw [hs] at h
    exact Option.noConfusion
      (show (none : Option (Nat × Nat)) = some (y, m) from h)
  | some t =>
    obtain ⟨a, b, yy⟩ := t
    rw [hs] at h
    have h' : (if 1 ≤ b ∧ b ≤ 12 then some (yy, b) else none)
        = some (y, m) := h
    by_cases hb : 1 ≤ b ∧ b ≤ 12
    · rw [if_pos hb] at h'
      simp only [Option.some.injEq, Prod.mk.injEq] at h'
      rw [← h'.2]
      exact hb
    · rw [if_neg hb] at h'
      exact Option.noConfusion h'

lemma parseMDY_month_range {w : List Char} {y m : Nat}
    (h : parseMDY w = some (y, m)) : 1 ≤ m ∧ m ≤ 12 := by
  unfold parseMDY at h
  cases hs : searchTwoNumsYear w with
  | none =>
    rw [hs] at h
    exact parseDMY_month_range (show parseDMY w = some (y, m) from h)
  | some t =>
    obtain ⟨a, b, yy⟩ := t
    rw [hs] at h
    have h' : (if 1 ≤ a ∧ a ≤ 12 then some (yy, a) else parseDMY w)
        = some (y, m) := h
    by_cases ha : 1 ≤ a ∧ a ≤ 12
    · rw [if_pos ha] at h'
      simp only [Option.some.injEq, Prod.mk.injEq] at h'
      rw [← h'.2]
      exact ha
    · rw [if_neg ha] at h'
      exact parseDMY_month_range h'

lemma parse_month_range {v : String} {y m : Nat}
    (h : _parse_year_month_any v = some (y, m)) : 1 ≤ m ∧ m ≤ 12 := by
  unfold _parse_year_month_any at h
  by_cases hv : v = ""
  · rw [if_pos hv] at h
    exact Option.noConfusion h
  · rw [if_neg hv] at h
    cases hs : searchYMD (trimChars v.toList) with
    | none =>
      rw [hs] at h
      exact parseMDY_month_range
        (show parseMDY (trimChars v.toList) = some (y, m) from h)
    | some p =>
      obtain ⟨y', mm⟩ := p
      rw [hs] at h
      have h' : (if 1 ≤ mm ∧ mm ≤ 12 then some (y', mm)
          else parseMDY (trimChars v.toList)) = some (y, m) := h
      by_cases hm : 1 ≤ mm ∧ mm ≤ 12
      · rw [if_pos hm] at h'
        simp only [Option.some.injEq, Prod.mk.injEq] at h'
        rw [← h'.2]
        exact hm
      · rw [if_neg hm] at h'
        exact parseMDY_month_range h'

lemma extract_shape {v : String} {year : Nat} {k : String}
    (h : _extract_year_month v year = some k) :
    ∃ m, 1 ≤ m ∧ m ≤ 12 ∧ k = fmtYM year m
      ∧ _parse_year_month_any v = some (year, m) := by
  unfold _extract_year_month at h
  cases hp : _parse_year_month_any v with
  | none =>
    rw [hp] at h
    exact Option.noConfusion (show (none : Option String) = some k from h)
  | some p =>
    obtain ⟨y, m⟩ := p
    rw [hp] at h
    have h' : (if y ≠ year then none else some (fmtYM y m)) = some k := h
    by_cases hy : y ≠ year
    · rw [if_pos hy] at h'
      exact Option.noConfusion h'
    · rw [if_neg hy] at h'
      push_neg at hy
      subst hy
      obtain ⟨h1, h2⟩ := parse_month_range hp
      refine ⟨m, h1, h2, ?_, rfl⟩
      exact (Option.some.inj h').symm

lemma rowBucket_shape {sc : Option String} {year : Nat} {row : Row}
    {k : String} (h : rowBucket sc year row = some k) :
    ∃ m v, 1 ≤ m ∧ m ≤ 12 ∧ k = fmtYM year m
      ∧ _parse_year_month_any v = some (year, m)
      ∧ ((∃ c, sc = some c ∧ v = rowGetD row c "") ∨ v ∈ rowValues row) := by
  unfold rowBucket at h
  cases sc with
  | some c =>
    have h' : (match _extract_year_month (rowGetD row c "") year with
        | some b => some b
        | none => firstSome (fun v => _extract_year_month v year)
            (rowValues row)) = some k := h
    cases he : _extract_year_month (rowGetD row c "") year with
    | some b =>
      rw [he] at h'
      have hbk : b = k := Option.some.inj (show some b = some k from h')
      obtain ⟨m, h1, h2, h3, h4⟩ := extract_shape he
      exact ⟨m, rowGetD row c "", h1, h2, hbk ▸ h3, h4,
        Or.inl ⟨c, rfl, rfl⟩⟩
    | none =>
      rw [he] at h'
      obtain ⟨v, hv, hev⟩ := firstSome_mem
        (show firstSome (fun v => _extract_year_month v year)
          (rowValues row) = some k from h')
      obtain ⟨m, h1, h2, h3, h4⟩ := extract_shape hev
      exact ⟨m, v, h1, h2, h3, h4, Or.inr hv⟩
  | none =>
    obtain ⟨v, hv, hev⟩ := firstSome_mem
      (show firstSome (fun v => _extract_year_month v year)
        (rowValues row) = some k from h)
    obtain ⟨m, h1, h2, h3, h4⟩ := extract_shape hev
    exact ⟨m, v, h1, h2, h3, h4, Or.inr hv⟩

lemma firstSome_none {α β : Type} {f : α → Option β} {l : List α}
    (h : ∀ a ∈ l, f a = none) : firstSome f l = none := by
  induction l with
  | nil => rfl
  | cons a rest ih =>
    unfold firstSome
    rw [h a (List.mem_cons_self a rest)]
    exact ih (fun a' ha' => h a' (List.mem_cons_of_mem a ha'))

lemma rowBucket_none {sc : Option String} {year : Nat} {row : Row}
    (hc : ∀ c, sc = some c → _extract_year_month (rowGetD row c "") year = none)
    (hv : ∀ v ∈ rowValues row, _extract_year_month v year = none) :
    rowBucket sc year row = none := by
  unfold rowBucket
  cases sc with
  | some c =>
    show (match _extract_year_month (rowGetD row c "") year with
        | some b => some b
        | none => firstSome (fun v => _extract_year_month v year)
            (rowValues row)) = none
    rw [hc c rfl]
    exact firstSome_none hv
  | none => exact firstSome_none hv

lemma bucketsAdd_mem_char (bs : List (String × List Row)) (k : String)
    (r : Row) :
    ∀ p ∈ bucketsAdd bs k r,
      (p.1 = k ∧ p.2 = [r]) ∨ p ∈ bs ∨
        (∃ q ∈ bs, p.1 = q.1 ∧ p.2 = q.2 ++ [r]) := by
  induction bs with
  | nil =>
    intro p hp
    simp only [bucketsAdd, List.mem_singleton] at hp
    subst hp
    exact Or.inl ⟨rfl, rfl⟩
  | cons q rest ih =>
    intro p hp
    obtain ⟨k', rs⟩ := q
    unfold bucketsAdd at hp
    by_cases hk : k' = k
    · rw [if_pos hk] at hp
      rcases List.mem_cons.mp hp with hph | hpt
      · subst hph
        exact Or.inr (Or.inr ⟨(k', rs), List.mem_cons_self _ _, rfl, rfl⟩)
      · exact Or.inr (Or.inl (List.mem_cons_of_mem _ hpt))
    · rw [if_neg hk] at hp
      rcases List.mem_cons.mp hp with hph | hpt
      · subst hph
        exact Or.inr (Or.inl (List.mem_cons_self _ _))
      · rcases ih p hpt with h1 | h2 | ⟨q', hq', h3⟩
        · exact Or.inl h1
        · exact Or.inr (Or.inl (List.mem_cons_of_mem _ h2))
        · exact Or.inr (Or.inr ⟨q', List.mem_cons_of_mem _ hq', h3⟩)

/-- Generic invariant: a per-bucket property that holds for fresh and
extended buckets created from successfully bucketed rows survives the
whole rows fold. -/
lemma rowsFold_invariant {year : Nat} {sc : Option String}
    (Q : String × List Row → Prop)
    (hQ : ∀ r k bs, rowBucket sc year r = some k →
      (∀ p ∈ bs, Q p) → ∀ p ∈ bucketsAdd bs k r, Q p)
    (rows : List Row) :
    ∀ bs, (∀ p ∈ bs, Q p) →
      ∀ p ∈ rows.foldl (bucketStep sc year) bs, Q p := by
  induction rows with
  | nil => intro bs hbs; simpa using hbs
  | cons r rest ih =>
    intro bs hbs
    rw [List.foldl_cons]
    cases hrb : rowBucket sc year r with
    | none =>
      have hstep : bucketStep sc year bs r = bs := by
        unfold bucketStep
        rw [hrb]
      rw [hstep]
      exact ih bs hbs
    | some k =>
      have hstep : bucketStep sc year bs r = bucketsAdd bs k r := by
        unfold bucketStep
        rw [hrb]
      rw [hstep]
      exact ih _ (hQ r k bs hrb hbs)

lemma filesFold_invariant {year : Nat} (Q : String × List Row → Prop)
    (hQ : ∀ (sc : Option String) (r : Row) (k : String) bs,
      rowBucket sc year r = some k →
      (∀ p ∈ bs, Q p) → ∀ p ∈ bucketsAdd bs k r, Q p)
    (files : List FileContent) :
    ∀ acc : List (String × List Row) × Option (List String),
      (∀ p ∈ acc.1, Q p) →
      ∀ p ∈ (files.foldl (processFile year) acc).1, Q p := by
  induction files with
  | nil => intro acc hacc; simpa using hacc
  | cons fc rest ih =>
    intro acc hacc
    rw [List.foldl_cons]
    apply ih
    unfold processFile
    cases hr : readQuarterlyCode fc with
    | none => exact hacc
    | some hrows =>
      obtain ⟨h, rows⟩ := hrows
      exact rowsFold_invariant Q (hQ _) rows acc.1 hacc

lemma splitFinish_buckets (bs : List (String × List Row))
    (ho : Option (List String)) (wf : String → Bool) :
    (splitFinish bs ho wf).buckets = bs := by
  unfold splitFinish
  cases ho with
  | none => cases bs <;> rfl
  | some h => cases bs <;> rfl

/-- C5: every bucket the splitter creates is keyed `YYYY-MM` with the
declared year and a month in [1,12]; a row is bucketed under key `k` only
when one of its candidate values (the inferred start column's value, else
some value of the row) parses to (declared year, m) with `k` the
formatted `year-month`; and a row none of whose candidate values parses
to the declared year gets no bucket at all (it is dropped). -/
theorem rows_bucketed_only_for_declared_year (year : Nat)
    (files : List FileContent) (wf : String → Bool) :
    (∀ p ∈ (splitQuarterly year files wf).buckets,
        ∃ m, 1 ≤ m ∧ m ≤ 12 ∧ p.1 = fmtYM year m)
    ∧ (∀ (sc : Option String) (row : Row) (k : String),
        rowBucket sc year row = some k →
        ∃ m v, 1 ≤ m ∧ m ≤ 12 ∧ k = fmtYM year m
          ∧ _parse_year_month_any v = some (year, m)
          ∧ ((∃ c, sc = some c ∧ v = rowGetD row c "") ∨ v ∈ rowValues row))
    ∧ (∀ (sc : Option String) (row : Row),
        (∀ c, sc = some c →
          _extract_year_month (rowGetD row c "") year = none) →
        (∀ v ∈ rowValues row, _extract_year_month v year = none) →
        rowBucket sc year row = none) := by
  refine ⟨?_, fun sc row k h => rowBucket_shape h,
    fun sc row hc hv => rowBucket_none hc hv⟩
  intro p hp
  unfold splitQuarterly at hp
  rw [splitFinish_buckets] at hp
  refine filesFold_invariant
    (fun p => ∃ m, 1 ≤ m ∧ m ≤ 12 ∧ p.1 = fmtYM year m) ?_ files ([], none)
    (by intro p hp; exact absurd hp (by simp)) p hp
  intro sc r k bs hrb hbs p hp
  rcases bucketsAdd_mem_char bs k r p hp with ⟨h1, -⟩ | h2 | ⟨q, hq, h3, -⟩
  · obtain ⟨m, v, hm1, hm2, hm3, -⟩ := rowBucket_shape hrb
    exact ⟨m, hm1, hm2, h1.trans hm3⟩
  · exact hbs p h2
  · obtain ⟨m, hm⟩ := hbs q hq
    exact ⟨m, hm.1, hm.2.1, h3.trans hm.2.2⟩

def wQFiles : List FileContent :=
  [.utf8Ok ["Start Time", "x"]
    [[("Start Time", "2023-07-15"), ("x", "a")],
     [("Start Time", "oops"), ("x", "b")]]]

/-- Witness for C5 at a concrete quarterly file: the single produced
bucket is keyed "2023-07" for declared year 2023 with month 7, and the
undatable row is dropped. -/
theorem rows_bucketed_only_for_declared_year_witness :
    (∃ m, 1 ≤ m ∧ m ≤ 12 ∧
      ("2023-07", [[("Start Time", "2023-07-15"), ("x", "a")]]).1
        = fmtYM 2023 m)
    ∧ rowBucket (some "Start Time") 2023
        [("Start Time", "oops"), ("x", "b")] = none := by
  constructor
  · exact (rows_bucketed_only_for_declared_year 2023 wQFiles
      (fun _ => false)).1
      ("2023-07", [[("Start Time", "2023-07-15"), ("x", "a")]]) (by decide)
  · exact (rows_bucketed_only_for_declared_year 2023 wQFiles
      (fun _ => false)).2.2 (some "Start Time")
      [("Start Time", "oops"), ("x", "b")]
      (by intro c hc; cases hc; decide) (by decide)

lemma splitQuarterly_eq (year : Nat) (files : List FileContent)
    (wf : String → Bool) :
    splitQuarterly year files wf =
      splitFinish (files.foldl (processFile year) ([], none)).1
        (files.foldl (processFile year) ([], none)).2 wf := rfl

lemma splitFinish_deleted (bs : List (String × List Row))
    (ho : Option (List String)) (wf : String → Bool) :
    (splitFinish bs ho wf).deleted
      = decide (0 < (splitFinish bs ho wf).written) := by
  unfold splitFinish
  cases ho with
  | none => cases bs <;> rfl
  | some h => cases bs <;> rfl

lemma splitFinish_written_eq (bs : List (String × List Row))
    (ho : Option (List String)) (wf : String → Bool) :
    (splitFinish bs ho wf).written
      = (splitFinish bs ho wf).monthlyFiles.length := by
  unfold splitFinish
  cases ho with
  | none => cases bs <;> rfl
  | some h => cases bs <;> rfl

lemma insertSorted_perm (p : String × List Row)
    (l : List (String × List Row)) :
    (insertSorted p l).Perm (p :: l) := by
  induction l with
  | nil => exact List.Perm.refl _
  | cons q rest ih =>
    unfold insertSorted
    by_cases hle : strLeB p.1 q.1 = true
    · rw [if_pos hle]
    · rw [if_neg hle]
      exact (ih.cons q).trans (List.Perm.swap p q rest)

lemma sortBuckets_perm (l : List (String × List Row)) :
    (sortBuckets l).Perm l := by
  induction l with
  | nil => exact List.Perm.refl _
  | cons p rest ih =>
    exact (insertSorted_perm p (sortBuckets rest)).trans (ih.cons p)

lemma splitFinish_monthly_sub (bs : List (String × List Row))
    (ho : Option (List String)) (wf : String → Bool) :
    ∀ p ∈ (splitFinish bs ho wf).monthlyFiles, p ∈ bs := by
  unfold splitFinish
  cases ho with
  | none => cases bs <;> simp
  | some h =>
    cases bs with
    | nil => simp
    | cons b bs' =>
      intro p hp
      have hp2 := (List.mem_filter.mp hp).1
      exact ((sortBuckets_perm (b :: bs')).mem_iff).mp hp2

lemma splitQuarterly_buckets_nonempty (year : Nat)
    (files : List FileContent) (wf : String → Bool) :
    ∀ p ∈ (splitQuarterly year files wf).buckets, p.2 ≠ [] := by
  intro p hp
  rw [splitQuarterly_eq, splitFinish_buckets] at hp
  refine filesFold_invariant (fun p => p.2 ≠ []) ?_ files ([], none)
    (by intro p hp; exact absurd hp (by simp)) p hp
  intro sc r k bs hrb hbs p hp
  rcases bucketsAdd_mem_char bs k r p hp with ⟨-, h1⟩ | h2 | ⟨q, hq, -, h3⟩
  · rw [h1]; simp
  · exact hbs p h2
  · rw [h3]; simp

/-- C6: the quarterly inputs are deleted exactly when at least one
monthly file was written; every monthly file written holds at least one
row (buckets only exist for rows that were bucketed); and a zero return
count — including an all-failed batch — means nothing was deleted and no
monthly file was written. -/
theorem quarterlies_deleted_iff_monthly_written (year : Nat)
    (files : List FileContent) (wf : String → Bool) :
    ((splitQuarterly year files wf).deleted
        = decide (0 < (splitQuarterly year files wf).written))
    ∧ (∀ p ∈ (splitQuarterly year files wf).monthlyFiles, p.2 ≠ [])
    ∧ ((splitQuarterly year files wf).written = 0 →
        (splitQuarterly year files wf).deleted = false
        ∧ (splitQuarterly year files wf).monthlyFiles = []) := by
  refine ⟨?_, ?_, ?_⟩
  · rw [splitQuarterly_eq]
    exact splitFinish_deleted _ _ _
  · intro p hp
    rw [splitQuarterly_eq] at hp
    have hpb := splitFinish_monthly_sub _ _ _ p hp
    rw [← splitFinish_buckets
      (files.foldl (processFile year) ([], none)).1
      (files.foldl (processFile year) ([], none)).2 wf,
      ← splitQuarterly_eq] at hpb
    exact splitQuarterly_buckets_nonempty year files wf p hpb
  · intro h0
    constructor
    · rw [splitQuarterly_eq, splitFinish_deleted]
      rw [splitQuarterly_eq] at h0
      rw [h0]
      rfl
    · rw [splitQuarterly_eq] at h0 ⊢
      rw [splitFinish_written_eq] at h0
      exact List.length_eq_zero.mp h0

/-- Witness for C6 at a concrete quarterly batch: the split writes one
monthly file, the deletion flag matches `0 < written`, and the written
bucket is non-empty. -/
theorem quarterlies_deleted_iff_monthly_written_witness :
    ((splitQuarterly 2023 wQFiles (fun _ => false)).deleted
        = decide (0 < (splitQuarterly 2023 wQFiles (fun _ => false)).written))
    ∧ ("2023-07", [[("Start Time", "2023-07-15"), ("x", "a")]]).2 ≠ []
    ∧ (splitQuarterly 2023 wQFiles (fun _ => false)).written = 1 := by
  refine ⟨(quarterlies_deleted_iff_monthly_written 2023 wQFiles
      (fun _ => false)).1,
    (quarterlies_deleted_iff_monthly_written 2023 wQFiles
      (fun _ => false)).2.1
      ("2023-07", [[("Start Time", "2023-07-15"), ("x", "a")]]) (by decide),
    by decide⟩

def bucketsTotal (bs : List (String × List Row)) : Nat :=
  (bs.map (fun p => p.2.length)).sum

lemma bucketsTotal_cons (p : String × List Row)
    (t : List (String × List Row)) :
    bucketsTotal (p :: t) = p.2.length + bucketsTotal t := by
  simp [bucketsTotal]

lemma bucketsTotal_add (bs : List (String × List Row)) (k : String)
    (r : Row) :
    bucketsTotal (bucketsAdd bs k r) = bucketsTotal bs + 1 := by
  induction bs with
  | nil => rfl
  | cons q rest ih =>
    obtain ⟨k', rs⟩ := q
    unfold bucketsAdd
    by_cases hk : k' = k
    · rw [if_pos hk, bucketsTotal_cons, bucketsTotal_cons]
      simp only [List.length_append, List.length_singleton]
      omega
    · rw [if_neg hk, bucketsTotal_cons, bucketsTotal_cons, ih]
      omega

lemma rowsFold_total (sc : Option String) (year : Nat) (rows : List Row) :
    ∀ bs, bucketsTotal (rows.foldl (bucketStep sc year) bs)
      = bucketsTotal bs
        + (rows.filter (fun r => (rowBucket sc year r).isSome)).length := by
  induction rows with
  | nil => intro bs; simp
  | cons r rest ih =>
    intro bs
    rw [List.foldl_cons, List.filter_cons]
    cases hrb : rowBucket sc year r with
    | none =>
      have hstep : bucketStep sc year bs r = bs := by
        unfold bucketStep
        rw [hrb]
      rw [hstep, ih bs]
      simp [hrb]
    | some k =>
      have hstep : bucketStep sc year bs r = bucketsAdd bs k r := by
        unfold bucketStep
        rw [hrb]
      rw [hstep, ih _, bucketsTotal_add]
      simp only [hrb, Option.isSome_some, if_true, List.length_cons]
      omega

/-- Rows of one file that the reading loop buckets: zero when the file
cannot be read, else the rows whose date parses to the declared year. -/
def fileCount (year : Nat) (fc : FileContent) : Nat :=
  match readQuarterlyCode fc with
  | none => 0
  | some (h, rows) =>
    (rows.filter (fun r =>
      (rowBucket (_infer_start_datetime_field h) year r).isSome)).length

/-- Number of successfully read quarterly input rows whose date field
parsed to the declared year, across the whole batch. -/
def bucketedCount (year : Nat) (files : List FileContent) : Nat :=
  (files.map (fileCount year)).sum

lemma processFile_total (year : Nat)
    (acc : List (String × List Row) × Option (List String))
    (fc : FileContent) :
    bucketsTotal (processFile year acc fc).1
      = bucketsTotal acc.1 + fileCount year fc := by
  unfold processFile fileCount
  cases hr : readQuarterlyCode fc with
  | none => simp
  | some hrows =>
    obtain ⟨h, rows⟩ := hrows
    exact rowsFold_total _ year rows acc.1

lemma filesFold_total (year : Nat) (files : List FileContent) :
    ∀ acc, bucketsTotal ((files.foldl (processFile year) acc).1)
      = bucketsTotal acc.1 + bucketedCount year files := by
  induction files with
  | nil => intro acc; simp [bucketedCount]
  | cons fc rest ih =>
    intro acc
    rw [List.foldl_cons, ih, processFile_total]
    simp only [bucketedCount, List.map_cons, List.sum_cons]
    omega

lemma readQuarterlyCode_some {fc : FileContent} {h : List String}
    {rows : List Row} (he : readQuarterlyCode fc = some (h, rows)) :
    fc = .utf8Ok h rows := by
  cases fc with
  | utf8Ok h' rows' =>
    simp only [readQuarterlyCode, Option.some.injEq, Prod.mk.injEq] at he
    rw [he.1, he.2]
  | utf8Bad h' rows' => exact Option.noConfusion he

lemma filesFold_header (year : Nat) :
    ∀ files : List FileContent,
      (∀ h rows, FileContent.utf8Ok h rows ∈ files → h ≠ []) →
      ∀ acc : List (String × List Row) × Option (List String),
        (acc.1 ≠ [] → acc.2 ≠ none) →
        ((files.foldl (processFile year) acc).1 ≠ [] →
          (files.foldl (processFile year) acc).2 ≠ none) := by
  intro files
  induction files with
  | nil => intro _ acc hacc; simpa using hacc
  | cons fc rest ih =>
    intro hwf acc hacc
    rw [List.foldl_cons]
    apply ih (fun h rows hm => hwf h rows (List.mem_cons_of_mem fc hm))
    unfold processFile
    cases hr : readQuarterlyCode fc with
    | none => exact hacc
    | some hrows =>
      obtain ⟨h, rows⟩ := hrows
      have hh : h ≠ [] := by
        apply hwf h rows
        rw [← readQuarterlyCode_some hr]
        exact List.mem_cons_self fc rest
      intro _
      show chooseHeader acc.2 h ≠ none
      unfold chooseHeader
      cases hacc2 : acc.2 with
      | some h0 => simp
      | none =>
        cases h with
        | nil => exact absurd rfl hh
        | cons a t => simp

/-- C8: with every monthly write succeeding, the total number of data
rows across the monthly files written for a year equals the number of
successfully read quarterly input rows whose date field parsed to that
year (assuming each readable file has a non-empty header row, as every
CSV DictReader that yields rows does). -/
theorem split_row_count_preserved (year : Nat) (files : List FileContent)
    (hwf : ∀ h rows, FileContent.utf8Ok h rows ∈ files → h ≠ []) :
    ((splitQuarterly year files (fun _ => false)).monthlyFiles.map
        (fun p => p.2.length)).sum = bucketedCount year files := by
  have htot := filesFold_total year files ([], none)
  simp only [bucketsTotal, List.map_nil, List.sum_nil, Nat.zero_add] at htot
  rw [splitQuarterly_eq]
  cases hb : (files.foldl (processFile year) ([], none)).1 with
  | nil =>
    rw [hb] at htot
    simp only [List.map_nil, List.sum_nil] at htot
    cases hho : (files.foldl (processFile year) ([], none)).2 with
    | none =>
      show ((splitFinish [] none _).monthlyFiles.map _).sum = _
      simp [splitFinish, ← htot]
    | some h =>
      show ((splitFinish [] (some h) _).monthlyFiles.map _).sum = _
      simp [splitFinish, ← htot]
  | cons b bs' =>
    have hho := filesFold_header year files hwf ([], none) (by simp)
      (by rw [hb]; simp)
    cases hho2 : (files.foldl (processFile year) ([], none)).2 with
    | none => exact absurd hho2 hho
    | some h =>
      show ((splitFinish (b :: bs') (some h) (fun _ => false)).monthlyFiles.map
        (fun p => p.2.length)).sum = bucketedCount year files
      have hfil : (sortBuckets (b :: bs')).filter
          (fun p => !((fun _ : String => false) p.1)) = sortBuckets (b :: bs') :=
        List.filter_eq_self.mpr (fun p _ => rfl)
      show ((( (sortBuckets (b :: bs')).filter
          (fun p => !((fun _ : String => false) p.1))).map
            (fun p => p.2.length)).sum = bucketedCount year files)
      rw [hfil]
      have hperm := (sortBuckets_perm (b :: bs')).map
        (fun p : String × List Row => p.2.length)
      rw [hperm.sum_eq]
      rw [← htot, hb]

/-- Witness for C8 at a concrete batch: one bucketable row and one
undatable row give total written row count 1 = bucketed input count 1. -/
theorem split_row_count_preserved_witness :
    ((splitQuarterly 2023 wQFiles (fun _ => false)).monthlyFiles.map
        (fun p => p.2.length)).sum = bucketedCount 2023 wQFiles
    ∧ bucketedCount 2023 wQFiles = 1 := by
  constructor
  · exact split_row_count_preserved 2023 wQFiles
      (by
        intro h rows hm
        simp only [wQFiles, List.mem_singleton] at hm
        injection hm with h1 h2
        rw [h1]
        simp)
  · decide
